import Mathlib

/-
  Shallow embedding of `src/malloc-lab/mm.c` (segregated free list malloc with
  footer elimination and a "binary trace" hot-size detector).

  Modelling conventions:
  * The heap is a byte-addressed memory `Mem : Nat → Nat`; every cell holds a
    byte (reads normalize with `% 256`).  Addresses are plain naturals with
    `0` playing the role of the C null pointer (`mem_init` places the heap at
    a nonzero base, as the real `memlib` does).
  * `unsigned int` (header/footer words) loads and stores are 4-byte
    little-endian (`GET`/`PUT`, values taken `% 2^32`); pointer fields
    (`PRED`/`SUCC`) are 8-byte loads/stores (`GETP`/`PUTP`, values `% 2^64`).
  * `size_t` arithmetic wraps at `2^64`; the wrap is written explicitly
    (`% 2^64`, `sub64`) exactly where the C expression can wrap.
  * The C `while` loops over linked lists are embedded with an explicit fuel
    argument; all call sites pass `st.limit` (an upper bound on the heap
    size, hence on the length of any acyclic free list).
  * The global variables of mm.c form the record `MMState`.
-/

/-- Byte-addressed memory: address to byte value. -/
def Mem : Type := Nat → Nat

/-- Read one byte (normalized to `% 256`). -/
def readByte (m : Mem) (a : Nat) : Nat := m a % 256

/-- Macro `GET(p)`: 4-byte little-endian load of an `unsigned int`. -/
def GET (m : Mem) (p : Nat) : Nat :=
  readByte m p + 256 * readByte m (p+1) + 256^2 * readByte m (p+2) + 256^3 * readByte m (p+3)

/-- Macro `PUT(p, val)`: 4-byte little-endian store of an `unsigned int` (value wraps at `2^32`). -/
def PUT (m : Mem) (p v : Nat) : Mem := fun x =>
  if x = p then v % 2^32 % 256
  else if x = p + 1 then v % 2^32 / 256 % 256
  else if x = p + 2 then v % 2^32 / 256^2 % 256
  else if x = p + 3 then v % 2^32 / 256^3 % 256
  else m x

/-- Pointer load: 8-byte little-endian read of a stored pointer (`*(void **)p`). -/
def GETP (m : Mem) (p : Nat) : Nat :=
  readByte m p + 256 * readByte m (p+1) + 256^2 * readByte m (p+2) + 256^3 * readByte m (p+3)
  + 256^4 * readByte m (p+4) + 256^5 * readByte m (p+5)
  + 256^6 * readByte m (p+6) + 256^7 * readByte m (p+7)

/-- Pointer store: 8-byte little-endian write of a pointer value (wraps at `2^64`). -/
def PUTP (m : Mem) (p v : Nat) : Mem := fun x =>
  if x = p then v % 2^64 % 256
  else if x = p + 1 then v % 2^64 / 256 % 256
  else if x = p + 2 then v % 2^64 / 256^2 % 256
  else if x = p + 3 then v % 2^64 / 256^3 % 256
  else if x = p + 4 then v % 2^64 / 256^4 % 256
  else if x = p + 5 then v % 2^64 / 256^5 % 256
  else if x = p + 6 then v % 2^64 / 256^6 % 256
  else if x = p + 7 then v % 2^64 / 256^7 % 256
  else m x

/-- Byte-level `memcpy(dst, src, len)` at byte granularity (reads from the pre-copy memory). -/
def memcpyBytes (m : Mem) (dst src : Nat) : Nat → Mem
  | 0 => m
  | Nat.succ k => fun x =>
      if x = dst + k then readByte m (src + k) else memcpyBytes m dst src k x

/-- Basic constants of mm.c. -/
def WSIZE : Nat := 4

def DSIZE : Nat := 8

def CHUNKSIZE : Nat := 256

def MIN_BLOCK_SIZE : Nat := 24

def SEG_LIST_COUNT : Nat := 15

def EXACT_FIT_CLASSES : Nat := 3

def SIZE_80 : Nat := 80

def SIZE_128 : Nat := 128

def SIZE_464 : Nat := 464

/-- Macro `PACK(size, alloc, prev_alloc)`.  All call sites in mm.c pass a size that is a
multiple of 8 and bits in {0,1}, so the bitwise-or of the C macro coincides with
this sum. -/
def PACK (size alloc prev : Nat) : Nat := size + alloc + 2 * prev

/-- Macro `GET_SIZE(p) = GET(p) & ~0x7`, written arithmetically (the loaded word is `< 2^32`). -/
def GET_SIZE (m : Mem) (p : Nat) : Nat := GET m p / 8 * 8

/-- Macro `GET_ALLOC(p) = GET(p) & 0x1`. -/
def GET_ALLOC (m : Mem) (p : Nat) : Nat := GET m p % 2

/-- Macro `GET_PREV_ALLOC(p) = (GET(p) & 0x2) >> 1`. -/
def GET_PREV_ALLOC (m : Mem) (p : Nat) : Nat := GET m p / 2 % 2

/-- Macro `SET_PREV_ALLOC(p)`: set bit 1 of the word at `p`. -/
def SET_PREV_ALLOC (m : Mem) (p : Nat) : Mem :=
  PUT m p (if GET m p / 2 % 2 = 1 then GET m p else GET m p + 2)

/-- Macro `CLEAR_PREV_ALLOC(p)`: clear bit 1 of the word at `p`. -/
def CLEAR_PREV_ALLOC (m : Mem) (p : Nat) : Mem :=
  PUT m p (if GET m p / 2 % 2 = 1 then GET m p - 2 else GET m p)

/-- Macro `HDRP(bp)`. -/
def HDRP (bp : Nat) : Nat := bp - WSIZE

/-- Macro `FTRP(bp)` (uses the current header contents). -/
def FTRP (m : Mem) (bp : Nat) : Nat := bp + GET_SIZE m (HDRP bp) - DSIZE

/-- Macro `NEXT_BLKP(bp)`. -/
def NEXT_BLKP (m : Mem) (bp : Nat) : Nat := bp + GET_SIZE m (HDRP bp)

/-- Macro `PREV_BLKP(bp)` (reads the previous block's footer). -/
def PREV_BLKP (m : Mem) (bp : Nat) : Nat := bp - GET_SIZE m (bp - DSIZE)

/-- Macro `GET_PRED(bp)`. -/
def GET_PRED (m : Mem) (bp : Nat) : Nat := GETP m bp

/-- Macro `GET_SUCC(bp)`. -/
def GET_SUCC (m : Mem) (bp : Nat) : Nat := GETP m (bp + DSIZE)

/-- Macro `SET_PRED(bp, ptr)`. -/
def SET_PRED (m : Mem) (bp v : Nat) : Mem := PUTP m bp v

/-- Macro `SET_SUCC(bp, ptr)`. -/
def SET_SUCC (m : Mem) (bp v : Nat) : Mem := PUTP m (bp + DSIZE) v

/-- Wrapping `size_t` subtraction (`a - b` at width 64). -/
def sub64 (a b : Nat) : Nat := (2^64 + a - b % 2^64) % 2^64

/-- The global variables of mm.c.  `brk`/`limit` model the state of memlib's
arena (`mem_sbrk`): `brk` is the current break, `limit` the maximal break. -/
structure MMState where
  mem : Mem
  seg_list : Nat → Nat
  exact_fit_lists : Nat → Nat
  binary_mode : Bool
  alloc_count : Nat
  exact_fit_count : Nat → Nat
  heap_listp : Nat
  brk : Nat
  limit : Nat

/-- Modelled from the spec: the arena-growth primitive `mem_sbrk` of memlib
(not part of src/).  Per spec section 4.2 and 6 it returns the old end of the
arena as the start of the new region, or failure; failure is modelled as
exceeding the fixed maximal arena size `limit`. -/
def mem_sbrk (st : MMState) (incr : Nat) : MMState × Option Nat :=
  if st.brk + incr ≤ st.limit then ({ st with brk := st.brk + incr }, some st.brk)
  else (st, none)

/-- Function `get_seg_index` of mm.c. -/
def get_seg_index (size : Nat) : Nat :=
  if size ≤ 32 then 0
  else if size ≤ 48 then 1
  else if size ≤ 64 then 2
  else if size ≤ 96 then 3
  else if size ≤ 128 then 4
  else if size ≤ 192 then 5
  else if size ≤ 256 then 6
  else if size ≤ 512 then 7
  else if size ≤ 1024 then 8
  else if size ≤ 2048 then 9
  else if size ≤ 4096 then 10
  else if size ≤ 8192 then 11
  else if size ≤ 16384 then 12
  else if size ≤ 32768 then 13
  else 14

/-- Function `get_exact_fit_index` of mm.c; the C `-1` result is `none`. -/
def get_exact_fit_index (size : Nat) : Option Nat :=
  if size = SIZE_80 then some 0
  else if size = SIZE_128 then some 1
  else if size = SIZE_464 then some 2
  else none

/-- Pointwise update of an array-valued global (`seg_list[i] = v` and the like). -/
def updArr (f : Nat → Nat) (i v : Nat) : Nat → Nat := fun j => if j = i then v else f j

/-- Function `detect_binary_pattern` of mm.c. -/
def detect_binary_pattern (st : MMState) (asize : Nat) : MMState :=
  let st1 := { st with alloc_count := st.alloc_count + 1 }
  if st1.binary_mode then
    match get_exact_fit_index asize with
    | some i => { st1 with exact_fit_count := updArr st1.exact_fit_count i (st1.exact_fit_count i + 1) }
    | none => st1
  else
    let st2 :=
      match get_exact_fit_index asize with
      | some i => { st1 with exact_fit_count := updArr st1.exact_fit_count i (st1.exact_fit_count i + 1) }
      | none => st1
    if 50 ≤ st2.alloc_count ∧
        (10 ≤ st2.exact_fit_count 0 ∨ 10 ≤ st2.exact_fit_count 1 ∨ 10 ≤ st2.exact_fit_count 2) then
      { st2 with binary_mode := true }
    else st2

/-- Function `add_to_exact_list` of mm.c (LIFO push; defined in the source but never called). -/
def add_to_exact_list (st : MMState) (bp : Nat) (index : Option Nat) : MMState :=
  match index with
  | none => st
  | some i =>
    if bp = 0 ∨ EXACT_FIT_CLASSES ≤ i then st
    else
      let m1 := SET_PRED st.mem bp 0
      let m2 := SET_SUCC m1 bp (st.exact_fit_lists i)
      let m3 := if st.exact_fit_lists i ≠ 0 then SET_PRED m2 (st.exact_fit_lists i) bp else m2
      { st with mem := m3, exact_fit_lists := updArr st.exact_fit_lists i bp }

/-- The address-ordered search loop of `add_to_free_list`: returns the final
`(prev, curr)` pair of the C `while (curr != NULL && curr < bp)` loop. -/
def findPos (m : Mem) (bp : Nat) : Nat → Nat → Nat → Nat × Nat
  | curr, prev, 0 => (prev, curr)
  | curr, prev, Nat.succ fuel =>
    if curr ≠ 0 ∧ curr < bp then findPos m bp (GET_SUCC m curr) curr fuel
    else (prev, curr)

/-- Function `add_to_free_list` of mm.c (address-ordered insertion into a size class). -/
def add_to_free_list (st : MMState) (bp : Nat) : MMState :=
  if bp = 0 then st
  else
    let size := GET_SIZE st.mem (HDRP bp)
    let index := get_seg_index size
    let pc := findPos st.mem bp (st.seg_list index) 0 st.limit
    let prev := pc.1
    let curr := pc.2
    if prev = 0 then
      let m1 := SET_PRED st.mem bp 0
      let m2 := SET_SUCC m1 bp (st.seg_list index)
      let m3 := if st.seg_list index ≠ 0 then SET_PRED m2 (st.seg_list index) bp else m2
      { st with mem := m3, seg_list := updArr st.seg_list index bp }
    else
      let m1 := SET_PRED st.mem bp prev
      let m2 := SET_SUCC m1 bp curr
      let m3 := SET_SUCC m2 prev bp
      let m4 := if curr ≠ 0 then SET_PRED m3 curr bp else m3
      { st with mem := m4 }

/-- Function `remove_from_free_list` of mm.c. -/
def remove_from_free_list (st : MMState) (bp : Nat) : MMState :=
  if bp = 0 then st
  else
    let size := GET_SIZE st.mem (HDRP bp)
    let index := get_seg_index size
    let pred := GET_PRED st.mem bp
    let succ := GET_SUCC st.mem bp
    let st1 :=
      if pred = 0 then { st with seg_list := updArr st.seg_list index succ }
      else { st with mem := SET_SUCC st.mem pred succ }
    if succ ≠ 0 then { st1 with mem := SET_PRED st1.mem succ pred } else st1

/-- Function `coalesce` of mm.c.  Returns the (possibly merged) block payload pointer
together with the new state.  The reads of `prev_alloc`, `next_bp`,
`next_alloc` and `size` happen before any write, as in the source. -/
def coalesce (st : MMState) (bp : Nat) : MMState × Nat :=
  let prev_alloc := GET_PREV_ALLOC st.mem (HDRP bp)
  let next_bp := NEXT_BLKP st.mem bp
  let next_alloc := GET_ALLOC st.mem (HDRP next_bp)
  let size := GET_SIZE st.mem (HDRP bp)
  if st.binary_mode = true ∧ (get_exact_fit_index size).isSome then
    let st1 := add_to_free_list st bp
    ({ st1 with mem := CLEAR_PREV_ALLOC st1.mem (HDRP next_bp) }, bp)
  else if prev_alloc = 1 ∧ next_alloc = 1 then
    let st1 := add_to_free_list st bp
    ({ st1 with mem := CLEAR_PREV_ALLOC st1.mem (HDRP next_bp) }, bp)
  else if prev_alloc = 1 ∧ next_alloc ≠ 1 then
    let st1 := remove_from_free_list st next_bp
    let size2 := size + GET_SIZE st1.mem (HDRP next_bp)
    let m1 := PUT st1.mem (HDRP bp) (PACK size2 0 1)
    let m2 := PUT m1 (FTRP m1 bp) (PACK size2 0 1)
    let st2 := add_to_free_list { st1 with mem := m2 } bp
    ({ st2 with mem := CLEAR_PREV_ALLOC st2.mem (HDRP (NEXT_BLKP st2.mem bp)) }, bp)
  else if prev_alloc ≠ 1 ∧ next_alloc = 1 then
    let prev_bp := PREV_BLKP st.mem bp
    let st1 := remove_from_free_list st prev_bp
    let size2 := size + GET_SIZE st1.mem (HDRP prev_bp)
    let pp := GET_PREV_ALLOC st1.mem (HDRP prev_bp)
    let m1 := PUT st1.mem (HDRP prev_bp) (PACK size2 0 pp)
    let m2 := PUT m1 (FTRP m1 prev_bp) (PACK size2 0 pp)
    let st2 := add_to_free_list { st1 with mem := m2 } prev_bp
    ({ st2 with mem := CLEAR_PREV_ALLOC st2.mem (HDRP next_bp) }, prev_bp)
  else
    let prev_bp := PREV_BLKP st.mem bp
    let st1 := remove_from_free_list st prev_bp
    let st2 := remove_from_free_list st1 next_bp
    let size2 := size + GET_SIZE st2.mem (HDRP prev_bp) + GET_SIZE st2.mem (HDRP next_bp)
    let pp := GET_PREV_ALLOC st2.mem (HDRP prev_bp)
    let m1 := PUT st2.mem (HDRP prev_bp) (PACK size2 0 pp)
    let m2 := PUT m1 (FTRP m1 prev_bp) (PACK size2 0 pp)
    let st3 := add_to_free_list { st2 with mem := m2 } prev_bp
    ({ st3 with mem := CLEAR_PREV_ALLOC st3.mem (HDRP (NEXT_BLKP st3.mem prev_bp)) }, prev_bp)

/-- The inner `while (bp != NULL)` scan of `find_fit` over one size class,
tracking the best (smallest sufficient) candidate, with the early exit on an
exact size match.  `fuel` bounds the traversal (any acyclic list is shorter). -/
def scanBucket (m : Mem) (asize : Nat) : Nat → Nat → Nat → Nat → Nat
  | _, best, _, 0 => best
  | bp, best, bsize, Nat.succ fuel =>
    if bp = 0 then best
    else
      let bsz := GET_SIZE m (HDRP bp)
      if asize ≤ bsz then
        if best = 0 ∨ bsz < bsize then
          if bsz = asize then bp
          else scanBucket m asize (GET_SUCC m bp) bp bsz fuel
        else scanBucket m asize (GET_SUCC m bp) best bsize fuel
      else scanBucket m asize (GET_SUCC m bp) best bsize fuel

/-- The outer `for (i = index; i < SEG_LIST_COUNT; i++)` loop of `find_fit`:
`rem` counts the remaining classes (`SEG_LIST_COUNT - i`).  For `i > index` a
non-empty class returns its first block unconditionally; otherwise the class is
scanned and a non-null best candidate is returned. -/
def findFitFrom (m : Mem) (seg : Nat → Nat) (asize index fuel : Nat) : Nat → Nat → Nat
  | _, 0 => 0
  | i, Nat.succ rem =>
    let bp := seg i
    if index < i ∧ bp ≠ 0 then bp
    else
      let r := scanBucket m asize bp 0 0 fuel
      if r ≠ 0 then r
      else findFitFrom m seg asize index fuel (i+1) rem

/-- Function `find_fit` of mm.c (`0` is the C `NULL` result). -/
def find_fit (st : MMState) (asize : Nat) : Nat :=
  findFitFrom st.mem st.seg_list asize (get_seg_index asize) st.limit (get_seg_index asize)
    (SEG_LIST_COUNT - get_seg_index asize)

/-- Function `place` of mm.c: allocate `asize` inside the free block `bp`, splitting when
the remainder reaches the split threshold; requests of at least 112 bytes are
placed at the high end of the block. -/
def place (st : MMState) (bp asize : Nat) : MMState × Nat :=
  let csize := GET_SIZE st.mem (HDRP bp)
  let prev_alloc := GET_PREV_ALLOC st.mem (HDRP bp)
  let st1 := remove_from_free_list st bp
  let split_threshold :=
    if st1.binary_mode = true ∧ (get_exact_fit_index asize).isSome then 2 * MIN_BLOCK_SIZE
    else MIN_BLOCK_SIZE
  if split_threshold ≤ sub64 csize asize then
    if 112 ≤ asize then
      let m1 := PUT st1.mem (HDRP bp) (PACK (sub64 csize asize) 0 prev_alloc)
      let m2 := PUT m1 (FTRP m1 bp) (PACK (sub64 csize asize) 0 prev_alloc)
      let st2 := add_to_free_list { st1 with mem := m2 } bp
      let next_bp := NEXT_BLKP st2.mem bp
      let m3 := PUT st2.mem (HDRP next_bp) (PACK asize 1 0)
      let m4 := SET_PREV_ALLOC m3 (HDRP (NEXT_BLKP m3 next_bp))
      ({ st2 with mem := m4 }, next_bp)
    else
      let m1 := PUT st1.mem (HDRP bp) (PACK asize 1 prev_alloc)
      let next_bp := NEXT_BLKP m1 bp
      let m2 := PUT m1 (HDRP next_bp) (PACK (sub64 csize asize) 0 1)
      let m3 := PUT m2 (FTRP m2 next_bp) (PACK (sub64 csize asize) 0 1)
      let st2 := add_to_free_list { st1 with mem := m3 } next_bp
      (st2, bp)
  else
    let m1 := PUT st1.mem (HDRP bp) (PACK csize 1 prev_alloc)
    let m2 := SET_PREV_ALLOC m1 (HDRP (NEXT_BLKP m1 bp))
    ({ st1 with mem := m2 }, bp)

/-- Function `extend_heap` of mm.c. -/
def extend_heap (st : MMState) (words : Nat) : MMState × Option Nat :=
  let size := if words % 2 = 1 then (words + 1) * WSIZE else words * WSIZE
  match mem_sbrk st size with
  | (st1, none) => (st1, none)
  | (st1, some bp) =>
    let prev_alloc := GET_PREV_ALLOC st1.mem (HDRP bp)
    let m1 := PUT st1.mem (HDRP bp) (PACK size 0 prev_alloc)
    let m2 := PUT m1 (FTRP m1 bp) (PACK size 0 prev_alloc)
    let m3 := PUT m2 (HDRP (NEXT_BLKP m2 bp)) (PACK 0 1 0)
    let p := coalesce { st1 with mem := m3 } bp
    (p.1, some p.2)

/-- The adjusted block size computed by `mm_malloc` and `mm_realloc`:
`2*DSIZE` for requests up to `DSIZE`, otherwise
`DSIZE * ((size + DSIZE + (DSIZE-1)) / DSIZE)` with the `size_t` addition
wrapping at `2^64` as in C. -/
def adjustedSize (size : Nat) : Nat :=
  if size ≤ DSIZE then 2 * DSIZE
  else DSIZE * ((size + DSIZE + (DSIZE - 1)) % 2^64 / DSIZE)

/-- Function `mm_malloc` of mm.c (`none` is the C `NULL` result). -/
def mm_malloc (st : MMState) (size : Nat) : MMState × Option Nat :=
  if size = 0 then (st, none)
  else
    let asize := adjustedSize size
    let st1 := detect_binary_pattern st asize
    let bp := find_fit st1 asize
    if bp ≠ 0 then
      let p := place st1 bp asize
      (p.1, some p.2)
    else
      let extendsize := max asize CHUNKSIZE
      match extend_heap st1 (extendsize / WSIZE) with
      | (st2, none) => (st2, none)
      | (st2, some bp2) =>
        let p := place st2 bp2 asize
        (p.1, some p.2)

/-- Function `mm_free` of mm.c. -/
def mm_free (st : MMState) (bp : Nat) : MMState :=
  if bp = 0 then st
  else
    let size := GET_SIZE st.mem (HDRP bp)
    let prev_alloc := GET_PREV_ALLOC st.mem (HDRP bp)
    let m1 := PUT st.mem (HDRP bp) (PACK size 0 prev_alloc)
    let m2 := PUT m1 (FTRP m1 bp) (PACK size 0 prev_alloc)
    (coalesce { st with mem := m2 } bp).1

/-- Function `mm_realloc` of mm.c. -/
def mm_realloc (st : MMState) (ptr size : Nat) : MMState × Option Nat :=
  if ptr = 0 then mm_malloc st size
  else if size = 0 then (mm_free st ptr, none)
  else
    let oldsize := GET_SIZE st.mem (HDRP ptr)
    let asize := adjustedSize size
    if asize ≤ oldsize then (st, some ptr)
    else
      let next_bp := NEXT_BLKP st.mem ptr
      let next_size := GET_SIZE st.mem (HDRP next_bp)
      let next_alloc := GET_ALLOC st.mem (HDRP next_bp)
      if next_alloc ≠ 1 ∧ asize ≤ oldsize + next_size then
        let st1 := remove_from_free_list st next_bp
        let combined := oldsize + next_size
        let prev_alloc := GET_PREV_ALLOC st1.mem (HDRP ptr)
        let m1 := PUT st1.mem (HDRP ptr) (PACK combined 1 prev_alloc)
        let m2 := SET_PREV_ALLOC m1 (HDRP (NEXT_BLKP m1 ptr))
        ({ st1 with mem := m2 }, some ptr)
      else
        match mm_malloc st size with
        | (st1, none) => (st1, none)
        | (st1, some newptr) =>
          let m1 := memcpyBytes st1.mem newptr ptr (sub64 oldsize WSIZE)
          let st2 := mm_free { st1 with mem := m1 } ptr
          (st2, some newptr)

/-- All-zero initial memory (memlib hands the allocator fresh zeroed pages in
the model; mm.c never reads a byte it has not written in the traces below). -/
def initMem : Mem := fun _ => 0

/-- Function `mm_init` of mm.c, parameterized by the initial memory and the arena
parameters; the `Bool` is `true` for the C result `0` and `false` for `-1`. -/
def mm_init (m0 : Mem) (brk0 limit : Nat) : MMState × Bool :=
  let st0 : MMState :=
    { mem := m0, seg_list := fun _ => 0, exact_fit_lists := fun _ => 0,
      binary_mode := false, alloc_count := 0, exact_fit_count := fun _ => 0,
      heap_listp := 0, brk := brk0, limit := limit }
  match mem_sbrk st0 (4 * WSIZE) with
  | (st1, none) => (st1, false)
  | (st1, some hl) =>
    let m1 := PUT st1.mem hl 0
    let m2 := PUT m1 (hl + WSIZE) (PACK DSIZE 1 1)
    let m3 := PUT m2 (hl + 2 * WSIZE) (PACK DSIZE 1 1)
    let m4 := PUT m3 (hl + 3 * WSIZE) (PACK 0 1 1)
    let st2 := { st1 with mem := m4, heap_listp := hl + 2 * WSIZE }
    match extend_heap st2 (CHUNKSIZE / WSIZE) with
    | (st3, none) => (st3, false)
    | (st3, some _) => (st3, true)

/-- One external call into the allocator. -/
inductive Op where
  | malloc (n : Nat)
  | free (p : Nat)
  | realloc (p n : Nat)

/-- The state transition of one call (return values discarded). -/
def stepOp (st : MMState) : Op → MMState
  | Op.malloc n => (mm_malloc st n).1
  | Op.free p => mm_free st p
  | Op.realloc p n => (mm_realloc st p n).1

/-- Run a sequence of calls. -/
def run (st : MMState) (ops : List Op) : MMState := ops.foldl stepOp st

/-- The initialized allocator state used by the concrete traces:
`mm_init` on zeroed memory with heap base 16 and a 100000-byte arena limit.
After it, the prologue sits at payload 24 and one free block of size 256
(payload 32, header word at 28) is in `seg_list 6`. -/
def stInit : MMState := (mm_init initMem 16 100000).1

/-- State after `p1 = mm_malloc(1)` on the fresh heap: a 16-byte allocated
block at payload 32, and the 240-byte remainder free at payload 48. -/
def stA : MMState := (mm_malloc stInit 1).1

/-- State after a second `mm_malloc(1)`: a 16-byte allocated block at payload
48 (header word at 44), with the 224-byte remainder free at payload 64. -/
def stB : MMState := (mm_malloc stA 1).1

/-- State after `mm_free(32)` in `stB`: freeing the 16-byte block at 32 puts
it in `seg_list 0` and writes its 8-byte successor field at bytes 40..47,
past the end of the 16-byte block (which ends at byte 43). -/
def stC : MMState := mm_free stB 32

/-- Trace for the overflow bug: `mm_malloc(2^64 - 8)` on the fresh heap.
The `size_t` addition in the size adjustment wraps, so `asize = 0`. -/
def stOv : MMState × Option Nat := mm_malloc stInit (2^64 - 8)

/-- Second allocation after the overflowing one. -/
def stOv2 : MMState × Option Nat := mm_malloc stOv.1 1

/-- A bare allocator state with the given memory and mode (all lists empty). -/
def mkState (m : Mem) (bm : Bool) : MMState :=
  { mem := m, seg_list := fun _ => 0, exact_fit_lists := fun _ => 0,
    binary_mode := bm, alloc_count := 0, exact_fit_count := fun _ => 0,
    heap_listp := 0, brk := 0, limit := 1000 }

/-- Memory holding one free block of size 80 at payload 32 (header word 28)
whose physical successor (header word 108) is an allocated zero-size block. -/
def memHot : Mem := PUT (PUT initMem 28 (PACK 80 0 1)) 108 (PACK 0 1 0)

/-- Hot-size state handed to `coalesce` for claim C1: binary mode is active and
the freed block's size 80 is a monitored size. -/
def stHot : MMState := mkState memHot true

/-- Caller stores the byte 171 at address 43 = payload 32 + offset 11, inside
its own 12-byte payload, before the realloc of claim C7. -/
def stB2 : MMState := { stB with mem := fun x => if x = 43 then 171 else stB.mem x }

/-- State after `mm_realloc(32, 9)` in `stB2`: the next block (48) is allocated, so the
fallback path runs: `mm_malloc(9)` returns payload 64 and `memcpy` copies
`oldsize - WSIZE = 12` bytes. -/
def stR : MMState × Option Nat := mm_realloc stB2 32 9

/-- Function `place` applied with adjusted size 0 (as reached by the `2^64 - 8`
overflow trace through `mm_malloc`): the split path runs with `asize = 0`. -/
def placeZero : MMState × Nat := place stInit 32 0

/-- A sole free block of size 256 at payload 32 (header word 28, zero link
fields), not registered in any bucket: witness state for the `place` policy. -/
def stW8 : MMState := mkState (PUT initMem 28 (PACK 256 0 1)) false

/-- Detector state one allocation short of both thresholds: 49 total
allocations, 9 hits on monitored size 80. -/
def stDet : MMState :=
  { mkState initMem false with
      alloc_count := 49, exact_fit_count := fun j => if j = 0 then 9 else 0, limit := 0 }

/-- Chain predicate: `isChainB m a l` holds when following the `SUCC` fields from list head `a`
visits exactly the blocks in `l` and ends at the null pointer.  This is the
shape invariant of one free-list bucket. -/
def isChainB (m : Mem) : Nat → List Nat → Bool
  | a, [] => a == 0
  | a, x :: xs => a == x && !(x == 0) && isChainB m (GET_SUCC m x) xs

/-- The heap extension (in bytes) that `mm_malloc` requests from `mem_sbrk`
when no fit is found: `max(asize, CHUNKSIZE)` rounded up to an even word
count, exactly as `extend_heap` computes it. -/
def roundedExtend (asize : Nat) : Nat :=
  let words := max asize CHUNKSIZE / WSIZE
  if words % 2 = 1 then (words + 1) * WSIZE else words * WSIZE

/-- Memory holding one free block of size 80 at payload 32 (header word 28),
with null link fields, used to witness the `find_fit` characterization. -/
def memFit : Mem := PUT initMem 28 (PACK 80 0 1)

/-- State whose only free block is the size-80 block at 32, registered in
size class 3. -/
def stFit : MMState := { mkState memFit false with seg_list := updArr (fun _ => 0) 3 32 }

theorem PUT_out (m : Mem) (p v x : Nat) (h : x < p ∨ p + 4 ≤ x) : PUT m p v x = m x := by
  unfold PUT
  rw [if_neg (show ¬(x = p) by omega), if_neg (show ¬(x = p + 1) by omega),
    if_neg (show ¬(x = p + 2) by omega), if_neg (show ¬(x = p + 3) by omega)]

theorem PUTP_out (m : Mem) (p v x : Nat) (h : x < p ∨ p + 8 ≤ x) : PUTP m p v x = m x := by
  unfold PUTP
  rw [if_neg (show ¬(x = p) by omega), if_neg (show ¬(x = p + 1) by omega),
    if_neg (show ¬(x = p + 2) by omega), if_neg (show ¬(x = p + 3) by omega),
    if_neg (show ¬(x = p + 4) by omega), if_neg (show ¬(x = p + 5) by omega),
    if_neg (show ¬(x = p + 6) by omega), if_neg (show ¬(x = p + 7) by omega)]

theorem GET_PUT_ne (m : Mem) (p v q : Nat) (h : q + 4 ≤ p ∨ p + 4 ≤ q) :
    GET (PUT m p v) q = GET m q := by
  unfold GET readByte
  rw [PUT_out m p v q (by omega), PUT_out m p v (q+1) (by omega),
    PUT_out m p v (q+2) (by omega), PUT_out m p v (q+3) (by omega)]

theorem GET_PUTP_ne (m : Mem) (p v q : Nat) (h : q + 4 ≤ p ∨ p + 8 ≤ q) :
    GET (PUTP m p v) q = GET m q := by
  unfold GET readByte
  rw [PUTP_out m p v q (by omega), PUTP_out m p v (q+1) (by omega),
    PUTP_out m p v (q+2) (by omega), PUTP_out m p v (q+3) (by omega)]

theorem GET_PUT_eq (m : Mem) (p v : Nat) : GET (PUT m p v) p = v % 2^32 := by
  unfold GET readByte PUT
  rw [if_pos (show p = p from rfl)]
  rw [if_neg (show ¬(p + 1 = p) by omega), if_pos (show p + 1 = p + 1 from rfl)]
  rw [if_neg (show ¬(p + 2 = p) by omega), if_neg (show ¬(p + 2 = p + 1) by omega),
    if_pos (show p + 2 = p + 2 from rfl)]
  rw [if_neg (show ¬(p + 3 = p) by omega), if_neg (show ¬(p + 3 = p + 1) by omega),
    if_neg (show ¬(p + 3 = p + 2) by omega), if_pos (show p + 3 = p + 3 from rfl)]
  norm_num
  omega

theorem GET_lt (m : Mem) (p : Nat) : GET m p < 2^32 := by
  unfold GET readByte
  norm_num
  omega

set_option maxRecDepth 100000

/-- Claim C10: calling `mm_free` with the null pointer returns immediately and
leaves the whole allocator state (arena, free lists, detector) unchanged. -/
theorem free_null_noop (st : MMState) : mm_free st 0 = st := rfl

/-- Witness for `free_null_noop` at a concrete state. -/
theorem free_null_noop_witness : mm_free stInit 0 = stInit := free_null_noop stInit

/-- Claim C2 (code bug): for the request `n = 1` the adjusted block size is 16,
which is below `MIN_BLOCK_SIZE = 24`, the source's own documented minimum free
block size.  Consequently writing the footer and the two 8-byte link fields of
such a block does not stay inside its byte range: in the trace
`init; malloc(1) = 32; malloc(1) = 48; free(32)` the block at 32 spans bytes
[28, 44), yet its successor-field write covers [40, 48) and zeroes the live
neighbor's header word at 44 (19 before the free, 0 after). -/
theorem adjusted_size_below_min_block :
    adjustedSize 1 = 16 ∧ adjustedSize 1 < MIN_BLOCK_SIZE ∧
    GET_SIZE stB.mem (HDRP 32) = 16 ∧
    HDRP 32 + GET_SIZE stB.mem (HDRP 32) < 32 + 2 * DSIZE ∧
    GET stB.mem 44 = 19 ∧ GET stC.mem 44 = 0 := by decide

/-- Claim C3 (code bug): `mm_malloc (2^64 - 8)` makes the `size_t` size
adjustment wrap to `asize = 0`; the call succeeds returning payload 32, and the
immediately following `mm_malloc 1` returns the same payload 32, so the two
live blocks are not disjoint (and the first payload is certainly not `2^64-8`
bytes). -/
theorem malloc_overflow_duplicate_address :
    (1 : Nat) ≤ 2^64 - 8 ∧ adjustedSize (2^64 - 8) = 0 ∧
    stOv.2 = some 32 ∧ stOv2.2 = some 32 := by decide

/-- Claim C4 (code bug): after the completed operations
`init; malloc(1) = 32; malloc(1) = 48; free(32)`, the allocated 16-byte block
at 48 (header word 44, allocated bit 1, physical successor 64 in `stB`) has had
its header zeroed by the free-list insertion of block 32, so the successor pair
(48, 64) now violates the invariant: block 48's allocated bit reads 0 while
block 64's `prev_allocated` bit is still 1, and block 48's size reads 0 so the
header chain is no longer walkable. -/
theorem free_breaks_prev_alloc_invariant :
    GET_ALLOC stB.mem (HDRP 48) = 1 ∧ GET_SIZE stB.mem (HDRP 48) = 16 ∧
    NEXT_BLKP stB.mem 48 = 64 ∧
    GET_ALLOC stC.mem (HDRP 48) = 0 ∧ GET_SIZE stC.mem (HDRP 48) = 0 ∧
    GET_PREV_ALLOC stC.mem (HDRP 64) = 1 := by decide

/-- Claim C1 (counterexample): in hot-size mode (`binary_mode = true`), a freed
block whose size 80 is a monitored size is inserted by `coalesce` into its
size-class bucket (`seg_list 3`), not into the exact-fit accelerator list,
which stays empty. -/
theorem hot_free_goes_to_seg_list :
    stHot.binary_mode = true ∧
    get_exact_fit_index (GET_SIZE stHot.mem (HDRP 32)) = some 0 ∧
    (coalesce stHot 32).2 = 32 ∧
    (coalesce stHot 32).1.exact_fit_lists 0 = 0 ∧
    (coalesce stHot 32).1.seg_list 3 = 32 := by decide

/-- Claim C7 (counterexample): in the trace `init; malloc(1) = 32;
malloc(1) = 48`, the caller stores byte 171 at payload offset 11 of block 32,
then calls `mm_realloc(32, 9)`.  The next block is allocated so the fallback
path runs: the new block is payload 64 and the byte at offset 11 of the new
payload equals 171 afterwards, although `min(old payload size, new size)
= min(12, 9) = 9 ≤ 11`: more than `min` bytes were copied. -/
theorem realloc_copies_more_than_min :
    GET_SIZE stB2.mem (HDRP 32) = 16 ∧
    min (GET_SIZE stB2.mem (HDRP 32) - WSIZE) 9 = 9 ∧
    stR.2 = some 64 ∧
    readByte stB2.mem (64 + 11) = 0 ∧ readByte stR.1.mem (64 + 11) = 171 := by decide

/-- Claim C8 (counterexample): `place` with the reachable adjusted size 0
(produced by `adjustedSize (2^64 - 8) = 0`) takes the split path
(`csize - asize = 256 ≥ 24` and `0 < 112`), which per the claim should leave
the allocated portion at the original low address 32; instead the returned
block's header is immediately overwritten and reads free with the full size
256. -/
theorem place_zero_asize_no_alloc :
    adjustedSize (2^64 - 8) = 0 ∧
    MIN_BLOCK_SIZE ≤ sub64 (GET_SIZE stInit.mem (HDRP 32)) 0 ∧
    placeZero.2 = 32 ∧
    GET_ALLOC placeZero.1.mem (HDRP 32) = 0 ∧
    GET_SIZE placeZero.1.mem (HDRP 32) = 256 := by decide

/-- Claim C9: `mm_malloc` returns the null result exactly when the request size
is zero, or no fit exists and the arena-growth call that `mm_malloc` then makes
(`mem_sbrk` for `roundedExtend asize` bytes) fails; in every other case it
returns a payload address. -/
theorem malloc_none_iff (st : MMState) (size : Nat) :
    (mm_malloc st size).2 = none ↔
      size = 0 ∨
        (find_fit (detect_binary_pattern st (adjustedSize size)) (adjustedSize size) = 0 ∧
         (mem_sbrk (detect_binary_pattern st (adjustedSize size)) (roundedExtend (adjustedSize size))).2 = none) := by
  by_cases h0 : size = 0
  · subst h0
    simp [mm_malloc]
  · simp only [mm_malloc, if_neg h0]
    by_cases hf : find_fit (detect_binary_pattern st (adjustedSize size)) (adjustedSize size) = 0
    · simp only [hf, ne_eq, not_true_eq_false, if_false]
      simp only [extend_heap, roundedExtend]
      rcases hsb : mem_sbrk (detect_binary_pattern st (adjustedSize size))
          (if max (adjustedSize size) CHUNKSIZE / WSIZE % 2 = 1 then
            (max (adjustedSize size) CHUNKSIZE / WSIZE + 1) * WSIZE
          else max (adjustedSize size) CHUNKSIZE / WSIZE * WSIZE) with ⟨st2, r⟩
      cases r with
      | none => simp [hsb, h0, hf]
      | some bp => simp [hsb, h0, hf]
    · simp only [hf, ne_eq, not_false_eq_true, if_true]
      simp [h0, hf]

/-- Witness for `malloc_none_iff`: the zero-size request yields the null result. -/
theorem malloc_none_iff_witness : (mm_malloc stInit 0).2 = none :=
  (malloc_none_iff stInit 0).mpr (Or.inl rfl)

theorem det_add_to_free_list (st : MMState) (bp : Nat) :
    (add_to_free_list st bp).binary_mode = st.binary_mode ∧
    (add_to_free_list st bp).alloc_count = st.alloc_count ∧
    (add_to_free_list st bp).exact_fit_count = st.exact_fit_count := by
  simp only [add_to_free_list]
  repeat' split
  all_goals first | rfl | simp

theorem det_remove_from_free_list (st : MMState) (bp : Nat) :
    (remove_from_free_list st bp).binary_mode = st.binary_mode ∧
    (remove_from_free_list st bp).alloc_count = st.alloc_count ∧
    (remove_from_free_list st bp).exact_fit_count = st.exact_fit_count := by
  simp only [remove_from_free_list]
  repeat' split
  all_goals first | rfl | simp

theorem det_coalesce (st : MMState) (bp : Nat) :
    (coalesce st bp).1.binary_mode = st.binary_mode ∧
    (coalesce st bp).1.alloc_count = st.alloc_count ∧
    (coalesce st bp).1.exact_fit_count = st.exact_fit_count := by
  simp only [coalesce]
  repeat' split
  all_goals first
    | rfl
    | simp [det_add_to_free_list, det_remove_from_free_list]

theorem det_place (st : MMState) (bp asize : Nat) :
    (place st bp asize).1.binary_mode = st.binary_mode ∧
    (place st bp asize).1.alloc_count = st.alloc_count ∧
    (place st bp asize).1.exact_fit_count = st.exact_fit_count := by
  simp only [place]
  repeat' split
  all_goals first
    | rfl
    | simp [det_add_to_free_list, det_remove_from_free_list]

theorem det_mem_sbrk (st : MMState) (n : Nat) :
    (mem_sbrk st n).1.binary_mode = st.binary_mode ∧
    (mem_sbrk st n).1.alloc_count = st.alloc_count ∧
    (mem_sbrk st n).1.exact_fit_count = st.exact_fit_count := by
  simp only [mem_sbrk]
  split <;> simp

theorem det_extend_heap (st : MMState) (words : Nat) :
    (extend_heap st words).1.binary_mode = st.binary_mode ∧
    (extend_heap st words).1.alloc_count = st.alloc_count ∧
    (extend_heap st words).1.exact_fit_count = st.exact_fit_count := by
  simp only [extend_heap]
  rcases h : mem_sbrk st (if words % 2 = 1 then (words + 1) * WSIZE else words * WSIZE) with ⟨st1, r⟩
  have h1 : (mem_sbrk st (if words % 2 = 1 then (words + 1) * WSIZE else words * WSIZE)).1 = st1 := by
    rw [h]
  obtain ⟨hb, ha, he⟩ := det_mem_sbrk st (if words % 2 = 1 then (words + 1) * WSIZE else words * WSIZE)
  rw [h1] at hb ha he
  cases r with
  | none => simp [hb, ha, he]
  | some bp => simp [det_coalesce, hb, ha, he]

theorem det_mm_free (st : MMState) (bp : Nat) :
    (mm_free st bp).binary_mode = st.binary_mode ∧
    (mm_free st bp).alloc_count = st.alloc_count ∧
    (mm_free st bp).exact_fit_count = st.exact_fit_count := by
  simp only [mm_free]
  split
  · simp
  · simp [det_coalesce]

theorem det_mm_malloc (st : MMState) (size : Nat) (h : size ≠ 0) :
    (mm_malloc st size).1.binary_mode = (detect_binary_pattern st (adjustedSize size)).binary_mode ∧
    (mm_malloc st size).1.alloc_count = (detect_binary_pattern st (adjustedSize size)).alloc_count ∧
    (mm_malloc st size).1.exact_fit_count = (detect_binary_pattern st (adjustedSize size)).exact_fit_count := by
  simp only [mm_malloc, if_neg h]
  split
  · simp [det_place]
  · rcases hx : extend_heap (detect_binary_pattern st (adjustedSize size))
        (max (adjustedSize size) CHUNKSIZE / WSIZE) with ⟨st2, r⟩
    have h1 : (extend_heap (detect_binary_pattern st (adjustedSize size))
        (max (adjustedSize size) CHUNKSIZE / WSIZE)).1 = st2 := by rw [hx]
    obtain ⟨hb, ha, he⟩ := det_extend_heap (detect_binary_pattern st (adjustedSize size))
        (max (adjustedSize size) CHUNKSIZE / WSIZE)
    rw [h1] at hb ha he
    cases r with
    | none => simp [hx, hb, ha, he]
    | some bp2 => simp [hx, det_place, hb, ha, he]

theorem det_mm_realloc (st : MMState) (p n : Nat) :
    ((mm_realloc st p n).1.binary_mode = st.binary_mode ∧
     (mm_realloc st p n).1.alloc_count = st.alloc_count ∧
     (mm_realloc st p n).1.exact_fit_count = st.exact_fit_count) ∨
    ((mm_realloc st p n).1.binary_mode = (mm_malloc st n).1.binary_mode ∧
     (mm_realloc st p n).1.alloc_count = (mm_malloc st n).1.alloc_count ∧
     (mm_realloc st p n).1.exact_fit_count = (mm_malloc st n).1.exact_fit_count) := by
  simp only [mm_realloc]
  by_cases hp : p = 0
  · simp only [if_pos hp]
    right
    simp
  · simp only [if_neg hp]
    by_cases hn : n = 0
    · simp only [if_pos hn]
      left
      simpa using det_mm_free st p
    · simp only [if_neg hn]
      split
      · left
        simp
      · split
        · left
          simp [det_remove_from_free_list]
        · rcases hm : mm_malloc st n with ⟨st1, r⟩
          cases r with
          | none =>
            right
            simp
          | some newptr =>
            right
            have hf := det_mm_free
              { st1 with mem := memcpyBytes st1.mem newptr p (sub64 (GET_SIZE st.mem (HDRP p)) WSIZE) } p
            simpa using hf

theorem detect_latch (st : MMState) (a : Nat) (h : st.binary_mode = true) :
    (detect_binary_pattern st a).binary_mode = true := by
  simp [detect_binary_pattern, h]
  split <;> simp

theorem detect_flip (st : MMState) (a : Nat) (h0 : st.binary_mode = false)
    (h1 : (detect_binary_pattern st a).binary_mode = true) :
    50 ≤ (detect_binary_pattern st a).alloc_count ∧
      (10 ≤ (detect_binary_pattern st a).exact_fit_count 0 ∨
       10 ≤ (detect_binary_pattern st a).exact_fit_count 1 ∨
       10 ≤ (detect_binary_pattern st a).exact_fit_count 2) := by
  rcases hg : get_exact_fit_index a with _ | i
  · simp only [detect_binary_pattern, hg] at h1 ⊢
    rw [if_neg (show ¬ st.binary_mode = true by simp [h0])] at h1 ⊢
    by_cases hc : 50 ≤ st.alloc_count + 1 ∧
        (10 ≤ st.exact_fit_count 0 ∨ 10 ≤ st.exact_fit_count 1 ∨ 10 ≤ st.exact_fit_count 2)
    · rw [if_pos hc]
      exact hc
    · rw [if_neg hc] at h1
      rw [h0] at h1
      exact absurd h1 (by simp)
  · simp only [detect_binary_pattern, hg] at h1 ⊢
    rw [if_neg (show ¬ st.binary_mode = true by simp [h0])] at h1 ⊢
    by_cases hc : 50 ≤ st.alloc_count + 1 ∧
        (10 ≤ updArr st.exact_fit_count i (st.exact_fit_count i + 1) 0 ∨
         10 ≤ updArr st.exact_fit_count i (st.exact_fit_count i + 1) 1 ∨
         10 ≤ updArr st.exact_fit_count i (st.exact_fit_count i + 1) 2)
    · rw [if_pos hc]
      exact hc
    · rw [if_neg hc] at h1
      rw [h0] at h1
      exact absurd h1 (by simp)

theorem step_latch (st : MMState) (op : Op) (h : st.binary_mode = true) :
    (stepOp st op).binary_mode = true := by
  cases op with
  | malloc n =>
    by_cases hn : n = 0
    · subst hn
      simpa [stepOp, mm_malloc] using h
    · simp only [stepOp]
      rw [(det_mm_malloc st n hn).1]
      exact detect_latch st _ h
  | free p =>
    simp only [stepOp]
    rw [(det_mm_free st p).1]
    exact h
  | realloc p n =>
    simp only [stepOp]
    rcases det_mm_realloc st p n with ⟨hb, _, _⟩ | ⟨hb, _, _⟩
    · rw [hb]; exact h
    · rw [hb]
      by_cases hn : n = 0
      · subst hn
        simpa [mm_malloc] using h
      · rw [(det_mm_malloc st n hn).1]
        exact detect_latch st _ h

theorem step_flip (st : MMState) (op : Op) (h0 : st.binary_mode = false)
    (h1 : (stepOp st op).binary_mode = true) :
    50 ≤ (stepOp st op).alloc_count ∧
      (10 ≤ (stepOp st op).exact_fit_count 0 ∨
       10 ≤ (stepOp st op).exact_fit_count 1 ∨
       10 ≤ (stepOp st op).exact_fit_count 2) := by
  cases op with
  | malloc n =>
    by_cases hn : n = 0
    · simp only [stepOp, mm_malloc, if_pos hn] at h1
      rw [h0] at h1
      exact absurd h1 (by simp)
    · obtain ⟨hb, ha, he⟩ := det_mm_malloc st n hn
      simp only [stepOp] at h1 ⊢
      rw [hb] at h1
      rw [ha, he]
      exact detect_flip st _ h0 h1
  | free p =>
    simp only [stepOp] at h1
    rw [(det_mm_free st p).1, h0] at h1
    exact absurd h1 (by simp)
  | realloc p n =>
    simp only [stepOp] at h1 ⊢
    rcases det_mm_realloc st p n with ⟨hb, ha, he⟩ | ⟨hb, ha, he⟩
    · rw [hb, h0] at h1
      exact absurd h1 (by simp)
    · rw [hb] at h1
      rw [ha, he]
      by_cases hn : n = 0
      · simp only [mm_malloc, if_pos hn] at h1
        rw [h0] at h1
        exact absurd h1 (by simp)
      · obtain ⟨hb2, ha2, he2⟩ := det_mm_malloc st n hn
        rw [hb2] at h1
        rw [ha2, he2]
        exact detect_flip st _ h0 h1

theorem run_latch (ops : List Op) : ∀ st : MMState, st.binary_mode = true →
    (run st ops).binary_mode = true := by
  induction ops with
  | nil => exact fun st h => h
  | cons op rest ih => exact fun st h => ih _ (step_latch st op h)

/-- Claim C5: across any sequence of allocator calls after init, the hot-size
mode flag never reverts from active to inactive (a one-way latch, so it flips
at most once), and whenever a call turns it from inactive to active, at that
very call the total allocation count has reached its threshold (50) and some
monitored size's hit count has reached its own threshold (10). -/
theorem binary_mode_latch_and_thresholds (st : MMState) (ops : List Op) :
    (st.binary_mode = true → (run st ops).binary_mode = true) ∧
    (∀ pre op post, ops = pre ++ op :: post →
      (run st pre).binary_mode = false →
      (stepOp (run st pre) op).binary_mode = true →
      50 ≤ (stepOp (run st pre) op).alloc_count ∧
        (10 ≤ (stepOp (run st pre) op).exact_fit_count 0 ∨
         10 ≤ (stepOp (run st pre) op).exact_fit_count 1 ∨
         10 ≤ (stepOp (run st pre) op).exact_fit_count 2)) :=
  ⟨fun h => run_latch ops st h,
   fun _ op _ _ h0 h1 => step_flip _ op h0 h1⟩

/-- Witness for `binary_mode_latch_and_thresholds`: the latch keeps the mode
active over a concrete call, and the concrete flipping call (50th allocation,
10th hit on monitored size 80) satisfies both thresholds. -/
theorem binary_mode_latch_and_thresholds_witness :
    (run { stDet with binary_mode := true } [Op.malloc 72]).binary_mode = true ∧
    (50 ≤ (stepOp (run stDet []) (Op.malloc 72)).alloc_count ∧
      (10 ≤ (stepOp (run stDet []) (Op.malloc 72)).exact_fit_count 0 ∨
       10 ≤ (stepOp (run stDet []) (Op.malloc 72)).exact_fit_count 1 ∨
       10 ≤ (stepOp (run stDet []) (Op.malloc 72)).exact_fit_count 2)) :=
  ⟨(binary_mode_latch_and_thresholds { stDet with binary_mode := true } [Op.malloc 72]).1 rfl,
   (binary_mode_latch_and_thresholds stDet [Op.malloc 72]).2 [] (Op.malloc 72) [] rfl
     (by decide) (by decide)⟩

theorem GET_CLEAR_PREV_ALLOC (m : Mem) (p : Nat) :
    GET_PREV_ALLOC (CLEAR_PREV_ALLOC m p) p = 0 := by
  have hlt := GET_lt m p
  unfold GET_PREV_ALLOC CLEAR_PREV_ALLOC
  rw [GET_PUT_eq]
  have h2 : (if GET m p / 2 % 2 = 1 then GET m p - 2 else GET m p) % 2^32
      = (if GET m p / 2 % 2 = 1 then GET m p - 2 else GET m p) := by
    apply Nat.mod_eq_of_lt
    split <;> omega
  rw [h2]
  split <;> omega

theorem exact_lists_add_to_free_list (st : MMState) (bp : Nat) :
    (add_to_free_list st bp).exact_fit_lists = st.exact_fit_lists := by
  simp only [add_to_free_list]
  repeat' split
  all_goals rfl

/-- Claim C1 (amended): in hot-size mode, a block handed to `coalesce` whose
size matches a monitored size skips the neighbor merge and has the successor's
`prev_allocated` bit cleared, but it is inserted into its size-class bucket by
`add_to_free_list`; the exact-fit accelerator lists are left untouched
(`add_to_exact_list` is never invoked by `coalesce`). -/
theorem coalesce_hot_size_behavior (st : MMState) (bp : Nat)
    (hbm : st.binary_mode = true)
    (hidx : (get_exact_fit_index (GET_SIZE st.mem (HDRP bp))).isSome = true) :
    coalesce st bp =
      ({ add_to_free_list st bp with
          mem := CLEAR_PREV_ALLOC (add_to_free_list st bp).mem (HDRP (NEXT_BLKP st.mem bp)) }, bp) ∧
    (coalesce st bp).1.exact_fit_lists = st.exact_fit_lists ∧
    GET_PREV_ALLOC (coalesce st bp).1.mem (HDRP (NEXT_BLKP st.mem bp)) = 0 := by
  have hmain : coalesce st bp =
      ({ add_to_free_list st bp with
          mem := CLEAR_PREV_ALLOC (add_to_free_list st bp).mem (HDRP (NEXT_BLKP st.mem bp)) }, bp) := by
    simp only [coalesce]
    rw [if_pos ⟨hbm, hidx⟩]
  refine ⟨hmain, ?_, ?_⟩
  · rw [hmain]
    exact exact_lists_add_to_free_list st bp
  · rw [hmain]
    exact GET_CLEAR_PREV_ALLOC _ _

/-- Witness for `coalesce_hot_size_behavior` at the concrete hot-size state. -/
theorem coalesce_hot_size_behavior_witness :
    (coalesce stHot 32).1.exact_fit_lists = stHot.exact_fit_lists ∧
    GET_PREV_ALLOC (coalesce stHot 32).1.mem (HDRP (NEXT_BLKP stHot.mem 32)) = 0 :=
  ⟨(coalesce_hot_size_behavior stHot 32 (by decide) (by decide)).2.1,
   (coalesce_hot_size_behavior stHot 32 (by decide) (by decide)).2.2⟩

theorem dvd_GET_SIZE (m : Mem) (p : Nat) : 8 ∣ GET_SIZE m p :=
  ⟨GET m p / 8, Nat.mul_comm _ _⟩

theorem dvd_adjustedSize (size : Nat) : 8 ∣ adjustedSize size := by
  unfold adjustedSize
  split
  · exact ⟨2, rfl⟩
  · exact ⟨(size + DSIZE + (DSIZE - 1)) % 2^64 / DSIZE, rfl⟩

theorem sub64_small (a b : Nat) (hb : b ≤ a) (ha : a < 2^64) : sub64 a b = a - b := by
  unfold sub64
  omega

/-- Claim C7 (amended): the fallback path of `mm_realloc` (next block not
usable for in-place growth) copies exactly `oldsize - WSIZE` bytes, the old
block's full payload capacity; since the fallback only runs when the adjusted
new size exceeds the old block size, that amount never exceeds either block's
payload capacity (it is strictly below the new adjusted size's payload
capacity `adjustedSize size - WSIZE`). -/
theorem realloc_fallback_copy_length (st : MMState) (ptr size : Nat)
    (hptr : ptr ≠ 0) (hsize : size ≠ 0)
    (hgrow : GET_SIZE st.mem (HDRP ptr) < adjustedSize size)
    (hnext : ¬(GET_ALLOC st.mem (HDRP (NEXT_BLKP st.mem ptr)) ≠ 1 ∧
        adjustedSize size ≤ GET_SIZE st.mem (HDRP ptr) + GET_SIZE st.mem (HDRP (NEXT_BLKP st.mem ptr))))
    (hmin : 8 ≤ GET_SIZE st.mem (HDRP ptr)) :
    mm_realloc st ptr size =
      (match mm_malloc st size with
       | (st1, none) => (st1, none)
       | (st1, some newptr) =>
         (mm_free { st1 with
             mem := memcpyBytes st1.mem newptr ptr (GET_SIZE st.mem (HDRP ptr) - WSIZE) } ptr,
          some newptr)) ∧
    sub64 (GET_SIZE st.mem (HDRP ptr)) WSIZE = GET_SIZE st.mem (HDRP ptr) - WSIZE ∧
    GET_SIZE st.mem (HDRP ptr) - WSIZE + WSIZE ≤ adjustedSize size := by
  have hsub : sub64 (GET_SIZE st.mem (HDRP ptr)) WSIZE = GET_SIZE st.mem (HDRP ptr) - WSIZE := by
    apply sub64_small
    · unfold WSIZE
      omega
    · have := GET_lt st.mem (HDRP ptr)
      unfold GET_SIZE
      omega
  refine ⟨?_, hsub, ?_⟩
  · simp only [mm_realloc, if_neg hptr, if_neg hsize, if_neg (not_le.mpr hgrow), if_neg hnext]
    rw [hsub]
  · obtain ⟨k, hk⟩ := dvd_GET_SIZE st.mem (HDRP ptr)
    obtain ⟨j, hj⟩ := dvd_adjustedSize size
    unfold WSIZE
    omega

/-- Witness for `realloc_fallback_copy_length` at the concrete C7 trace state. -/
theorem realloc_fallback_copy_length_witness :
    sub64 (GET_SIZE stB2.mem (HDRP 32)) WSIZE = GET_SIZE stB2.mem (HDRP 32) - WSIZE ∧
    GET_SIZE stB2.mem (HDRP 32) - WSIZE + WSIZE ≤ adjustedSize 9 :=
  ⟨(realloc_fallback_copy_length stB2 32 9 (by decide) (by decide) (by decide) (by decide)
      (by decide)).2.1,
   (realloc_fallback_copy_length stB2 32 9 (by decide) (by decide) (by decide) (by decide)
      (by decide)).2.2⟩

theorem GET_PREV_ALLOC_le (m : Mem) (p : Nat) : GET_PREV_ALLOC m p ≤ 1 := by
  unfold GET_PREV_ALLOC
  omega

theorem GET_PUT_PACK (m : Mem) (p s a pr : Nat) (h8 : 8 ∣ s) (hs : s + 3 < 2^32)
    (ha : a ≤ 1) (hp : pr ≤ 1) :
    GET_SIZE (PUT m p (PACK s a pr)) p = s ∧
    GET_ALLOC (PUT m p (PACK s a pr)) p = a ∧
    GET_PREV_ALLOC (PUT m p (PACK s a pr)) p = pr := by
  unfold GET_SIZE GET_ALLOC GET_PREV_ALLOC PACK
  rw [GET_PUT_eq]
  refine ⟨?_, ?_, ?_⟩ <;> omega

theorem GET_SIZE_PUT_ne (m : Mem) (p v q : Nat) (h : q + 4 ≤ p ∨ p + 4 ≤ q) :
    GET_SIZE (PUT m p v) q = GET_SIZE m q := by
  unfold GET_SIZE
  rw [GET_PUT_ne m p v q h]

theorem GET_SIZE_PUTP_ne (m : Mem) (p v q : Nat) (h : q + 4 ≤ p ∨ p + 8 ≤ q) :
    GET_SIZE (PUTP m p v) q = GET_SIZE m q := by
  unfold GET_SIZE
  rw [GET_PUTP_ne m p v q h]

theorem remove_sole (st : MMState) (bp : Nat) (hbp : bp ≠ 0)
    (hpred : GET_PRED st.mem bp = 0) (hsucc : GET_SUCC st.mem bp = 0) :
    remove_from_free_list st bp =
      { st with seg_list := updArr st.seg_list (get_seg_index (GET_SIZE st.mem (HDRP bp))) 0 } := by
  simp only [remove_from_free_list, if_neg hbp, hpred, hsucc]
  simp

theorem add_to_empty (st : MMState) (bp : Nat) (hbp : bp ≠ 0)
    (hhead : st.seg_list (get_seg_index (GET_SIZE st.mem (HDRP bp))) = 0)
    (hfuel : 1 ≤ st.limit) :
    add_to_free_list st bp =
      { st with
          mem := SET_SUCC (SET_PRED st.mem bp 0) bp 0,
          seg_list := updArr st.seg_list (get_seg_index (GET_SIZE st.mem (HDRP bp))) bp } := by
  obtain ⟨f, hf⟩ : ∃ f, st.limit = f + 1 := ⟨st.limit - 1, by omega⟩
  simp only [add_to_free_list, if_neg hbp, hhead, hf]
  simp [findPos]

theorem GET_ALLOC_PUT_ne (m : Mem) (p v q : Nat) (h : q + 4 ≤ p ∨ p + 4 ≤ q) :
    GET_ALLOC (PUT m p v) q = GET_ALLOC m q := by
  unfold GET_ALLOC
  rw [GET_PUT_ne m p v q h]

theorem GET_ALLOC_PUTP_ne (m : Mem) (p v q : Nat) (h : q + 4 ≤ p ∨ p + 8 ≤ q) :
    GET_ALLOC (PUTP m p v) q = GET_ALLOC m q := by
  unfold GET_ALLOC
  rw [GET_PUTP_ne m p v q h]

theorem GET_SIZE_SPA_ne (m : Mem) (p q : Nat) (h : q + 4 ≤ p ∨ p + 4 ≤ q) :
    GET_SIZE (SET_PREV_ALLOC m p) q = GET_SIZE m q := by
  unfold SET_PREV_ALLOC
  exact GET_SIZE_PUT_ne m p _ q h

theorem GET_ALLOC_SPA_ne (m : Mem) (p q : Nat) (h : q + 4 ≤ p ∨ p + 4 ≤ q) :
    GET_ALLOC (SET_PREV_ALLOC m p) q = GET_ALLOC m q := by
  unfold SET_PREV_ALLOC
  exact GET_ALLOC_PUT_ne m p _ q h

/-- Claim C8 (amended): for every placement of an adjusted size `asize ≥ 8`
into a sole free block of size `csize`: the block is allocated whole (unsplit,
header keeps `csize`, allocated bit set) when `csize - asize` is below the
split threshold; the threshold is `MIN_BLOCK_SIZE`, doubled in hot-size mode
for monitored sizes.  Otherwise the block is split: for `asize ≥ 112` the
allocated portion sits at the high end (`bp + (csize - asize)`) with the free
remainder of size `csize - asize` at the original low address, reinserted into
its size class; for smaller `asize` the allocated portion keeps the low
address `bp` and the free remainder sits at `bp + asize`. -/
theorem place_split_policy (st : MMState) (bp asize csize thr : Nat)
    (hcsize : csize = GET_SIZE st.mem (HDRP bp))
    (hthr : thr = if st.binary_mode = true ∧ (get_exact_fit_index asize).isSome = true
                  then 2 * MIN_BLOCK_SIZE else MIN_BLOCK_SIZE)
    (hbp : 16 ≤ bp)
    (hseg : ∀ j, st.seg_list j = 0)
    (hpred : GET_PRED st.mem bp = 0) (hsucc : GET_SUCC st.mem bp = 0)
    (h8a : 8 ∣ asize) (ha8 : 8 ≤ asize)
    (hle : asize ≤ csize)
    (hcs : csize < 2^32)
    (hfuel : 1 ≤ st.limit) :
    (csize - asize < thr →
      (place st bp asize).2 = bp ∧
      GET_SIZE (place st bp asize).1.mem (HDRP bp) = csize ∧
      GET_ALLOC (place st bp asize).1.mem (HDRP bp) = 1) ∧
    (thr ≤ csize - asize → 112 ≤ asize →
      (place st bp asize).2 = bp + (csize - asize) ∧
      GET_SIZE (place st bp asize).1.mem (HDRP (bp + (csize - asize))) = asize ∧
      GET_ALLOC (place st bp asize).1.mem (HDRP (bp + (csize - asize))) = 1 ∧
      GET_SIZE (place st bp asize).1.mem (HDRP bp) = csize - asize ∧
      GET_ALLOC (place st bp asize).1.mem (HDRP bp) = 0 ∧
      (place st bp asize).1.seg_list (get_seg_index (csize - asize)) = bp) ∧
    (thr ≤ csize - asize → asize < 112 →
      (place st bp asize).2 = bp ∧
      GET_SIZE (place st bp asize).1.mem (HDRP bp) = asize ∧
      GET_ALLOC (place st bp asize).1.mem (HDRP bp) = 1 ∧
      GET_SIZE (place st bp asize).1.mem (HDRP (bp + asize)) = csize - asize ∧
      GET_ALLOC (place st bp asize).1.mem (HDRP (bp + asize)) = 0 ∧
      (place st bp asize).1.seg_list (get_seg_index (csize - asize)) = bp + asize) := by
  have hbp0 : bp ≠ 0 := by omega
  have hsub : sub64 (GET_SIZE st.mem (HDRP bp)) asize = csize - asize := by
    rw [← hcsize]
    exact sub64_small _ _ hle (by omega)
  have h8c : 8 ∣ csize := by
    rw [hcsize]
    exact dvd_GET_SIZE _ _
  have h8r : 8 ∣ (csize - asize) := Nat.dvd_sub' h8c h8a
  have hpa : GET_PREV_ALLOC st.mem (HDRP bp) ≤ 1 := GET_PREV_ALLOC_le _ _
  have hthr24 : 24 ≤ thr := by
    rw [hthr]
    unfold MIN_BLOCK_SIZE
    split <;> omega
  simp only [place]
  rw [remove_sole st bp hbp0 hpred hsucc, hsub]
  dsimp only
  rw [← hthr, ← hcsize]
  refine ⟨?_, ?_, ?_⟩
  · intro hns
    rw [if_neg (show ¬ thr ≤ csize - asize by omega)]
    have hm1 := GET_PUT_PACK st.mem (HDRP bp) csize 1 (GET_PREV_ALLOC st.mem (HDRP bp))
      h8c (by omega) (by omega) hpa
    have hnext : NEXT_BLKP (PUT st.mem (HDRP bp)
        (PACK csize 1 (GET_PREV_ALLOC st.mem (HDRP bp)))) bp = bp + csize := by
      unfold NEXT_BLKP
      rw [hm1.1]
    rw [hnext]
    refine ⟨rfl, ?_, ?_⟩
    · rw [GET_SIZE_SPA_ne _ _ _ (by unfold HDRP WSIZE; omega)]
      exact hm1.1
    · rw [GET_ALLOC_SPA_ne _ _ _ (by unfold HDRP WSIZE; omega)]
      exact hm1.2.1
  · intro hsp h112
    rw [if_pos hsp, if_pos h112]
    have hm1 := GET_PUT_PACK st.mem (HDRP bp) (csize - asize) 0
      (GET_PREV_ALLOC st.mem (HDRP bp)) h8r (by omega) (by omega) hpa
    have hftr1 : FTRP (PUT st.mem (HDRP bp)
        (PACK (csize - asize) 0 (GET_PREV_ALLOC st.mem (HDRP bp)))) bp
        = bp + (csize - asize) - 8 := by
      unfold FTRP DSIZE
      rw [hm1.1]
    rw [hftr1]
    set pa := GET_PREV_ALLOC st.mem (HDRP bp) with hpadef
    set m1 := PUT st.mem (HDRP bp) (PACK (csize - asize) 0 pa) with hm1def
    set m2 := PUT m1 (bp + (csize - asize) - 8) (PACK (csize - asize) 0 pa) with hm2def
    have hsz2 : GET_SIZE m2 (HDRP bp) = csize - asize := by
      rw [hm2def, GET_SIZE_PUT_ne _ _ _ _ (by unfold HDRP WSIZE; omega)]
      exact hm1.1
    have hal2 : GET_ALLOC m2 (HDRP bp) = 0 := by
      rw [hm2def, GET_ALLOC_PUT_ne _ _ _ _ (by unfold HDRP WSIZE; omega)]
      exact hm1.2.1
    have hadd := add_to_empty
      { st with
          mem := m2,
          seg_list := updArr st.seg_list (get_seg_index csize) 0 } bp hbp0
      (by dsimp only; rw [hsz2]; simp [updArr, hseg])
      (by dsimp only; omega)
    rw [hadd]
    dsimp only
    rw [hsz2]
    set mA := SET_SUCC (SET_PRED m2 bp 0) bp 0 with hmAdef
    have hszA : GET_SIZE mA (HDRP bp) = csize - asize := by
      rw [hmAdef]
      unfold SET_SUCC SET_PRED
      rw [GET_SIZE_PUTP_ne _ _ _ _ (by unfold HDRP WSIZE DSIZE; omega),
        GET_SIZE_PUTP_ne _ _ _ _ (by unfold HDRP WSIZE; omega)]
      exact hsz2
    have halA : GET_ALLOC mA (HDRP bp) = 0 := by
      rw [hmAdef]
      unfold SET_SUCC SET_PRED
      rw [GET_ALLOC_PUTP_ne _ _ _ _ (by unfold HDRP WSIZE DSIZE; omega),
        GET_ALLOC_PUTP_ne _ _ _ _ (by unfold HDRP WSIZE; omega)]
      exact hal2
    have hnextA : NEXT_BLKP mA bp = bp + (csize - asize) := by
      unfold NEXT_BLKP
      rw [hszA]
    rw [hnextA]
    have hm3 := GET_PUT_PACK mA (HDRP (bp + (csize - asize))) asize 1 0 h8a
      (by omega) (by omega) (by omega)
    have hnext3 : NEXT_BLKP (PUT mA (HDRP (bp + (csize - asize))) (PACK asize 1 0))
        (bp + (csize - asize)) = bp + csize := by
      unfold NEXT_BLKP
      rw [hm3.1]
      omega
    rw [hnext3]
    set m3 := PUT mA (HDRP (bp + (csize - asize))) (PACK asize 1 0) with hm3def
    refine ⟨rfl, ?_, ?_, ?_, ?_, ?_⟩
    · rw [GET_SIZE_SPA_ne _ _ _ (by unfold HDRP WSIZE; omega)]
      exact hm3.1
    · rw [GET_ALLOC_SPA_ne _ _ _ (by unfold HDRP WSIZE; omega)]
      exact hm3.2.1
    · rw [GET_SIZE_SPA_ne _ _ _ (by unfold HDRP WSIZE; omega), hm3def,
        GET_SIZE_PUT_ne _ _ _ _ (by unfold HDRP WSIZE; omega)]
      exact hszA
    · rw [GET_ALLOC_SPA_ne _ _ _ (by unfold HDRP WSIZE; omega), hm3def,
        GET_ALLOC_PUT_ne _ _ _ _ (by unfold HDRP WSIZE; omega)]
      exact halA
    · simp [updArr]
  · intro hsp h112
    rw [if_pos hsp, if_neg (show ¬ 112 ≤ asize by omega)]
    have hm1 := GET_PUT_PACK st.mem (HDRP bp) asize 1 (GET_PREV_ALLOC st.mem (HDRP bp))
      h8a (by omega) (by omega) hpa
    have hnext : NEXT_BLKP (PUT st.mem (HDRP bp)
        (PACK asize 1 (GET_PREV_ALLOC st.mem (HDRP bp)))) bp = bp + asize := by
      unfold NEXT_BLKP
      rw [hm1.1]
    rw [hnext]
    set pa := GET_PREV_ALLOC st.mem (HDRP bp) with hpadef
    set m1 := PUT st.mem (HDRP bp) (PACK asize 1 pa) with hm1def
    have hm2 := GET_PUT_PACK m1 (HDRP (bp + asize)) (csize - asize) 0 1 h8r
      (by omega) (by omega) (by omega)
    have hftr2 : FTRP (PUT m1 (HDRP (bp + asize)) (PACK (csize - asize) 0 1)) (bp + asize)
        = bp + csize - 8 := by
      unfold FTRP DSIZE
      rw [hm2.1]
      omega
    rw [hftr2]
    set m2 := PUT m1 (HDRP (bp + asize)) (PACK (csize - asize) 0 1) with hm2def
    set m3 := PUT m2 (bp + csize - 8) (PACK (csize - asize) 0 1) with hm3def
    have hsz3 : GET_SIZE m3 (HDRP (bp + asize)) = csize - asize := by
      rw [hm3def, GET_SIZE_PUT_ne _ _ _ _ (by unfold HDRP WSIZE; omega)]
      exact hm2.1
    have hal3 : GET_ALLOC m3 (HDRP (bp + asize)) = 0 := by
      rw [hm3def, GET_ALLOC_PUT_ne _ _ _ _ (by unfold HDRP WSIZE; omega)]
      exact hm2.2.1
    have hszh : GET_SIZE m3 (HDRP bp) = asize := by
      rw [hm3def, GET_SIZE_PUT_ne _ _ _ _ (by unfold HDRP WSIZE; omega),
        hm2def, GET_SIZE_PUT_ne _ _ _ _ (by unfold HDRP WSIZE; omega)]
      exact hm1.1
    have halh : GET_ALLOC m3 (HDRP bp) = 1 := by
      rw [hm3def, GET_ALLOC_PUT_ne _ _ _ _ (by unfold HDRP WSIZE; omega),
        hm2def, GET_ALLOC_PUT_ne _ _ _ _ (by unfold HDRP WSIZE; omega)]
      exact hm1.2.1
    have hadd := add_to_empty
      { st with
          mem := m3,
          seg_list := updArr st.seg_list (get_seg_index csize) 0 } (bp + asize) (by omega)
      (by dsimp only; rw [hsz3]; simp [updArr, hseg])
      (by dsimp only; omega)
    rw [hadd]
    dsimp only
    rw [hsz3]
    refine ⟨rfl, ?_, ?_, ?_, ?_, ?_⟩
    · unfold SET_SUCC SET_PRED
      rw [GET_SIZE_PUTP_ne _ _ _ _ (by unfold HDRP WSIZE DSIZE; omega),
        GET_SIZE_PUTP_ne _ _ _ _ (by unfold HDRP WSIZE; omega)]
      exact hszh
    · unfold SET_SUCC SET_PRED
      rw [GET_ALLOC_PUTP_ne _ _ _ _ (by unfold HDRP WSIZE DSIZE; omega),
        GET_ALLOC_PUTP_ne _ _ _ _ (by unfold HDRP WSIZE; omega)]
      exact halh
    · unfold SET_SUCC SET_PRED
      rw [GET_SIZE_PUTP_ne _ _ _ _ (by unfold HDRP WSIZE DSIZE; omega),
        GET_SIZE_PUTP_ne _ _ _ _ (by unfold HDRP WSIZE; omega)]
      exact hsz3
    · unfold SET_SUCC SET_PRED
      rw [GET_ALLOC_PUTP_ne _ _ _ _ (by unfold HDRP WSIZE DSIZE; omega),
        GET_ALLOC_PUTP_ne _ _ _ _ (by unfold HDRP WSIZE; omega)]
      exact hal3
    · simp [updArr]

/-- Witness for `place_split_policy`: placing adjusted size 16 into the sole
256-byte free block takes the low-address split (16 < 112). -/
theorem place_split_policy_witness :
    (place stW8 32 16).2 = 32 ∧
    GET_SIZE (place stW8 32 16).1.mem (HDRP 32) = 16 ∧
    GET_SIZE (place stW8 32 16).1.mem (HDRP (32 + 16)) = 256 - 16 :=
  have h := place_split_policy stW8 32 16 256 24 (by decide) (by decide) (by decide)
    (fun _ => rfl) (by decide) (by decide) (by decide) (by decide) (by decide) (by decide)
    (by decide)
  ⟨(h.2.2 (by decide) (by decide)).1, (h.2.2 (by decide) (by decide)).2.1,
   (h.2.2 (by decide) (by decide)).2.2.2.1⟩

theorem scanBucket_null (m : Mem) (asize : Nat) (best bsize fuel : Nat) :
    scanBucket m asize 0 best bsize fuel = best := by
  cases fuel <;> simp [scanBucket]

theorem scanBucket_spec (m : Mem) (asize : Nat) (l : List Nat) :
    ∀ (bp best bsize fuel r : Nat),
      isChainB m bp l = true → l.length ≤ fuel →
      (best = 0 ∨ (asize ≤ bsize ∧ GET_SIZE m (HDRP best) = bsize)) →
      scanBucket m asize bp best bsize fuel = r →
      ((r = 0 → best = 0 ∧ ∀ y ∈ l, GET_SIZE m (HDRP y) < asize) ∧
       (r ≠ 0 → (r ∈ l ∧ asize ≤ GET_SIZE m (HDRP r)) ∨ r = best) ∧
       (∀ y ∈ l, asize ≤ GET_SIZE m (HDRP y) →
          r ≠ 0 ∧ GET_SIZE m (HDRP r) ≤ GET_SIZE m (HDRP y)) ∧
       (best ≠ 0 → r ≠ 0 ∧ GET_SIZE m (HDRP r) ≤ bsize)) := by
  induction l with
  | nil =>
    intro bp best bsize fuel r hc hlen hinv hr
    have hbp : bp = 0 := by simpa [isChainB] using hc
    subst hbp
    rw [scanBucket_null] at hr
    subst hr
    refine ⟨fun h0 => ⟨h0, by simp⟩, fun _ => Or.inr rfl, by simp, fun hb => ⟨hb, ?_⟩⟩
    rcases hinv with h | ⟨_, hbs⟩
    · exact absurd h hb
    · exact le_of_eq hbs
  | cons x xs ih =>
    intro bp best bsize fuel r hc hlen hinv hr
    have hc2 : (bp = x ∧ ¬x = 0) ∧ isChainB m (GET_SUCC m x) xs = true := by
      simpa [isChainB, Bool.and_eq_true] using hc
    obtain ⟨⟨hbpx, hx0⟩, hxs⟩ := hc2
    subst hbpx
    cases fuel with
    | zero => simp at hlen
    | succ f =>
      have hlen2 : xs.length ≤ f := by simpa using hlen
      simp only [scanBucket] at hr
      rw [if_neg hx0] at hr
      by_cases h1 : asize ≤ GET_SIZE m (HDRP bp)
      · rw [if_pos h1] at hr
        by_cases h2 : best = 0 ∨ GET_SIZE m (HDRP bp) < bsize
        · rw [if_pos h2] at hr
          by_cases h3 : GET_SIZE m (HDRP bp) = asize
          · rw [if_pos h3] at hr
            subst hr
            refine ⟨fun h0 => absurd h0 hx0, fun _ => Or.inl ⟨List.mem_cons_self _ _, h1⟩,
              ?_, ?_⟩
            · intro y hy hsy
              exact ⟨hx0, by rw [h3]; exact hsy⟩
            · intro hb
              rcases h2 with h2a | h2b
              · exact absurd h2a hb
              · exact ⟨hx0, by omega⟩
          · rw [if_neg h3] at hr
            obtain ⟨ih1, ih2, ih3, ih4⟩ :=
              ih (GET_SUCC m bp) bp (GET_SIZE m (HDRP bp)) f r hxs hlen2
                (Or.inr ⟨h1, rfl⟩) hr
            have hres := ih4 hx0
            refine ⟨fun h0 => absurd h0 hres.1.symm.symm, ?_, ?_, ?_⟩
            · intro hrne
              rcases ih2 hrne with ⟨hmem, hsuf⟩ | hrb
              · exact Or.inl ⟨List.mem_cons_of_mem _ hmem, hsuf⟩
              · subst hrb
                exact Or.inl ⟨List.mem_cons_self _ _, h1⟩
            · intro y hy hsy
              rcases List.mem_cons.mp hy with hxy | hy2
              · subst hxy
                exact hres
              · exact ih3 y hy2 hsy
            · intro hb
              rcases h2 with h2a | h2b
              · exact absurd h2a hb
              · exact ⟨hres.1, by omega⟩
        · rw [if_neg h2] at hr
          push_neg at h2
          obtain ⟨hbne, hbs⟩ := h2
          obtain ⟨ih1, ih2, ih3, ih4⟩ :=
            ih (GET_SUCC m bp) best bsize f r hxs hlen2 hinv hr
          have hres := ih4 hbne
          refine ⟨fun h0 => absurd h0 hres.1.symm.symm, ?_, ?_, fun _ => hres⟩
          · intro hrne
            rcases ih2 hrne with ⟨hmem, hsuf⟩ | hrb
            · exact Or.inl ⟨List.mem_cons_of_mem _ hmem, hsuf⟩
            · exact Or.inr hrb
          · intro y hy hsy
            rcases List.mem_cons.mp hy with hxy | hy2
            · subst hxy
              exact ⟨hres.1, le_trans hres.2 hbs⟩
            · exact ih3 y hy2 hsy
      · rw [if_neg h1] at hr
        obtain ⟨ih1, ih2, ih3, ih4⟩ :=
          ih (GET_SUCC m bp) best bsize f r hxs hlen2 hinv hr
        refine ⟨?_, ?_, ?_, ih4⟩
        · intro h0
          obtain ⟨hb0, hall⟩ := ih1 h0
          refine ⟨hb0, ?_⟩
          intro y hy
          rcases List.mem_cons.mp hy with hxy | hy2
          · subst hxy
            omega
          · exact hall y hy2
        · intro hrne
          rcases ih2 hrne with ⟨hmem, hsuf⟩ | hrb
          · exact Or.inl ⟨List.mem_cons_of_mem _ hmem, hsuf⟩
          · exact Or.inr hrb
        · intro y hy hsy
          rcases List.mem_cons.mp hy with hxy | hy2
          · subst hxy
            omega
          · exact ih3 y hy2 hsy

theorem chain_nil_of_zero (m : Mem) (l : List Nat) (h : isChainB m 0 l = true) : l = [] := by
  cases l with
  | nil => rfl
  | cons x xs =>
    exfalso
    simp [isChainB, Bool.and_eq_true] at h
    omega

theorem chain_cons_of_ne (m : Mem) (a : Nat) (l : List Nat) (h : isChainB m a l = true)
    (ha : a ≠ 0) : ∃ tl, l = a :: tl := by
  cases l with
  | nil =>
    exfalso
    simp [isChainB] at h
    exact ha h
  | cons x xs =>
    have h2 : (a = x ∧ ¬x = 0) ∧ isChainB m (GET_SUCC m x) xs = true := by
      simpa [isChainB, Bool.and_eq_true] using h
    exact ⟨xs, by rw [h2.1.1]⟩

theorem findFitFrom_tail (m : Mem) (seg : Nat → Nat) (asize index fuel : Nat)
    (L : Nat → List Nat) :
    ∀ (rem : Nat), ∀ (i r : Nat), index < i →
      (∀ j, i ≤ j → j < i + rem → isChainB m (seg j) (L j) = true) →
      findFitFrom m seg asize index fuel i rem = r →
      ((r = 0 ↔ ∀ j, i ≤ j → j < i + rem → L j = []) ∧
       (∀ j hd tl, i ≤ j → j < i + rem → L j = hd :: tl →
          (∀ k, i ≤ k → k < j → L k = []) → r = hd)) := by
  intro rem
  induction rem with
  | zero =>
    intro i r hi hch hr
    simp only [findFitFrom] at hr
    subst hr
    constructor
    · constructor
      · intro _ j hj1 hj2
        omega
      · intro _
        rfl
    · intro j hd tl hj1 hj2 _ _
      omega
  | succ rem ih =>
    intro i r hi hch hr
    simp only [findFitFrom] at hr
    by_cases hbp : seg i = 0
    · rw [if_neg (by simp [hbp])] at hr
      rw [hbp, scanBucket_null] at hr
      rw [if_neg (by simp)] at hr
      have hLi : L i = [] := by
        apply chain_nil_of_zero m
        rw [← hbp]
        exact hch i (le_refl i) (by omega)
      obtain ⟨iff2, first2⟩ := ih (i+1) r (by omega)
        (fun j hj1 hj2 => hch j (by omega) (by omega)) hr
      constructor
      · constructor
        · intro h0 j hj1 hj2
          by_cases hji : j = i
          · rw [hji]; exact hLi
          · exact iff2.mp h0 j (by omega) (by omega)
        · intro hall
          exact iff2.mpr (fun j hj1 hj2 => hall j (by omega) (by omega))
      · intro j hd tl hj1 hj2 hLj hempt
        by_cases hji : j = i
        · rw [hji, hLi] at hLj
          exact absurd hLj (by simp)
        · exact first2 j hd tl (by omega) (by omega) hLj
            (fun k hk1 hk2 => hempt k (by omega) hk2)
    · rw [if_pos ⟨hi, hbp⟩] at hr
      subst hr
      obtain ⟨tl0, htl0⟩ := chain_cons_of_ne m (seg i) (L i)
        (hch i (le_refl i) (by omega)) hbp
      constructor
      · constructor
        · intro h0
          exact absurd h0 hbp
        · intro hall
          exact absurd (hall i (le_refl i) (by omega)) (by rw [htl0]; simp)
      · intro j hd tl hj1 hj2 hLj hempt
        by_cases hji : j = i
        · rw [hji, htl0] at hLj
          exact (List.cons.injEq _ _ _ _ ▸ hLj).1.symm ▸ rfl
        · exfalso
          have := hempt i (le_refl i) (by omega)
          rw [htl0] at this
          exact absurd this (by simp)

theorem get_seg_index_lt (s : Nat) : get_seg_index s < 15 := by
  unfold get_seg_index
  rcases le_or_lt s 32 with h0 | h0
  · rw [if_pos h0]
    norm_num
  rw [if_neg (by omega)]
  rcases le_or_lt s 48 with h1 | h1
  · rw [if_pos h1]
    norm_num
  rw [if_neg (by omega)]
  rcases le_or_lt s 64 with h2 | h2
  · rw [if_pos h2]
    norm_num
  rw [if_neg (by omega)]
  rcases le_or_lt s 96 with h3 | h3
  · rw [if_pos h3]
    norm_num
  rw [if_neg (by omega)]
  rcases le_or_lt s 128 with h4 | h4
  · rw [if_pos h4]
    norm_num
  rw [if_neg (by omega)]
  rcases le_or_lt s 192 with h5 | h5
  · rw [if_pos h5]
    norm_num
  rw [if_neg (by omega)]
  rcases le_or_lt s 256 with h6 | h6
  · rw [if_pos h6]
    norm_num
  rw [if_neg (by omega)]
  rcases le_or_lt s 512 with h7 | h7
  · rw [if_pos h7]
    norm_num
  rw [if_neg (by omega)]
  rcases le_or_lt s 1024 with h8 | h8
  · rw [if_pos h8]
    norm_num
  rw [if_neg (by omega)]
  rcases le_or_lt s 2048 with h9 | h9
  · rw [if_pos h9]
    norm_num
  rw [if_neg (by omega)]
  rcases le_or_lt s 4096 with h10 | h10
  · rw [if_pos h10]
    norm_num
  rw [if_neg (by omega)]
  rcases le_or_lt s 8192 with h11 | h11
  · rw [if_pos h11]
    norm_num
  rw [if_neg (by omega)]
  rcases le_or_lt s 16384 with h12 | h12
  · rw [if_pos h12]
    norm_num
  rw [if_neg (by omega)]
  rcases le_or_lt s 32768 with h13 | h13
  · rw [if_pos h13]
    norm_num
  rw [if_neg (by omega)]
  norm_num

/-- Claim C6: characterization of `find_fit`.  Let `idx` be the size class of
the request and let `L j` list the blocks of bucket `j` (chain hypotheses).
(1) If the request's own class has a sufficient block, the result is a
sufficient block of that class of minimal size (the smallest-sufficient scan).
(2) If some block of the class matches the size exactly, the result has
exactly that size (the early exit returns an exact match).
(3) If the own class has no sufficient block, the result is the first block
of the first non-empty larger class, unconditionally.
(4) The result is null exactly when the own class has no sufficient block and
every larger class is empty. -/
theorem find_fit_characterization (st : MMState) (asize : Nat) (L : Nat → List Nat)
    (hch : ∀ j, get_seg_index asize ≤ j → j < 15 →
      isChainB st.mem (st.seg_list j) (L j) = true)
    (hfuel : (L (get_seg_index asize)).length ≤ st.limit) :
    ((∃ y ∈ L (get_seg_index asize), asize ≤ GET_SIZE st.mem (HDRP y)) →
       find_fit st asize ≠ 0 ∧ find_fit st asize ∈ L (get_seg_index asize) ∧
       asize ≤ GET_SIZE st.mem (HDRP (find_fit st asize)) ∧
       ∀ y ∈ L (get_seg_index asize), asize ≤ GET_SIZE st.mem (HDRP y) →
         GET_SIZE st.mem (HDRP (find_fit st asize)) ≤ GET_SIZE st.mem (HDRP y)) ∧
    ((∃ y ∈ L (get_seg_index asize), GET_SIZE st.mem (HDRP y) = asize) →
       GET_SIZE st.mem (HDRP (find_fit st asize)) = asize) ∧
    ((∀ y ∈ L (get_seg_index asize), GET_SIZE st.mem (HDRP y) < asize) →
       ∀ j hd tl, get_seg_index asize < j → j < 15 → L j = hd :: tl →
         (∀ k, get_seg_index asize < k → k < j → L k = []) → find_fit st asize = hd) ∧
    (find_fit st asize = 0 ↔
       ((∀ y ∈ L (get_seg_index asize), GET_SIZE st.mem (HDRP y) < asize) ∧
        ∀ j, get_seg_index asize < j → j < 15 → L j = [])) := by
  have hidx15 : get_seg_index asize < 15 := get_seg_index_lt asize
  obtain ⟨k, hk⟩ : ∃ k, 15 - get_seg_index asize = k + 1 :=
    ⟨15 - get_seg_index asize - 1, by omega⟩
  have hk2 : get_seg_index asize + 1 + k = 15 := by omega
  obtain ⟨s1, s2, s3, s4⟩ := scanBucket_spec st.mem asize (L (get_seg_index asize))
    (st.seg_list (get_seg_index asize)) 0 0 st.limit
    (scanBucket st.mem asize (st.seg_list (get_seg_index asize)) 0 0 st.limit)
    (hch _ (le_refl _) hidx15) hfuel (Or.inl rfl) rfl
  by_cases hr0z : scanBucket st.mem asize (st.seg_list (get_seg_index asize)) 0 0 st.limit = 0
  · obtain ⟨_, hall⟩ := s1 hr0z
    have hff : find_fit st asize =
        findFitFrom st.mem st.seg_list asize (get_seg_index asize) st.limit
          (get_seg_index asize + 1) k := by
      unfold find_fit SEG_LIST_COUNT
      rw [hk]
      simp only [findFitFrom]
      rw [if_neg (by omega), hr0z]
      simp
    obtain ⟨tiff, tfirst⟩ := findFitFrom_tail st.mem st.seg_list asize
      (get_seg_index asize) st.limit L k (get_seg_index asize + 1)
      (findFitFrom st.mem st.seg_list asize (get_seg_index asize) st.limit
        (get_seg_index asize + 1) k)
      (by omega) (fun j hj1 hj2 => hch j (by omega) (by omega)) rfl
    refine ⟨?_, ?_, ?_, ?_⟩
    · intro ⟨y, hy, hsy⟩
      exact absurd hsy (by have := hall y hy; omega)
    · intro ⟨y, hy, hsy⟩
      exact absurd hsy (by have := hall y hy; omega)
    · intro _ j hd tl hj1 hj2 hLj hempt
      rw [hff]
      exact tfirst j hd tl (by omega) (by omega) hLj (fun kk h1 h2 => hempt kk (by omega) h2)
    · rw [hff]
      constructor
      · intro h0
        refine ⟨hall, ?_⟩
        intro j hj1 hj2
        exact tiff.mp h0 j (by omega) (by omega)
      · intro ⟨_, hempty⟩
        exact tiff.mpr (fun j hj1 hj2 => hempty j (by omega) (by omega))
  · have hff : find_fit st asize =
        scanBucket st.mem asize (st.seg_list (get_seg_index asize)) 0 0 st.limit := by
      unfold find_fit SEG_LIST_COUNT
      rw [hk]
      simp only [findFitFrom]
      rw [if_neg (by omega), if_pos hr0z]
    have hmem := s2 hr0z
    rcases hmem with ⟨hmem, hsuf⟩ | hbad
    · refine ⟨?_, ?_, ?_, ?_⟩
      · intro _
        rw [hff]
        exact ⟨hr0z, hmem, hsuf, fun y hy hsy => (s3 y hy hsy).2⟩
      · intro ⟨y, hy, hye⟩
        rw [hff]
        have h1 := (s3 y hy (by omega)).2
        omega
      · intro hall
        exact absurd hsuf (by have := hall _ hmem; omega)
      · rw [hff]
        constructor
        · intro h0
          exact absurd h0 hr0z
        · intro ⟨hall, _⟩
          exact absurd hsuf (by have := hall _ hmem; omega)
    · exact absurd hbad hr0z

/-- Witness for `find_fit_characterization`: the single size-80 block at 32 in
bucket 3 is found (exact match) for a request of adjusted size 80. -/
theorem find_fit_characterization_witness :
    find_fit stFit 80 ≠ 0 ∧ GET_SIZE stFit.mem (HDRP (find_fit stFit 80)) = 80 := by
  have h := find_fit_characterization stFit 80 (fun j => if j = 3 then [32] else [])
    (by
      intro j h1 h2
      by_cases hj : j = 3
      · subst hj
        decide
      · simp only [if_neg hj]
        have hsg : stFit.seg_list j = 0 := by
          simp [stFit, mkState, updArr, hj]
        rw [hsg]
        decide)
    (by decide)
  exact ⟨(h.1 ⟨32, by decide, by decide⟩).1, h.2.1 ⟨32, by decide, by decide⟩⟩
